import Mathlib

/-!
Verification of the Linux crash-handler core
(stdlib/public/runtime/CrashHandlerLinux.cpp).

Shallow embedding: each C function relevant to the claims is translated
into an executable Lean definition.  Machine integers become Nat/Int
(lengths and addresses are Nat; the wire response length is Int, as the
source uses ssize_t/int64_t).  The crashing process's address space is a
partial map from addresses to byte values.  Byte-stream I/O is modelled
by explicit oracles: a function giving the result of the k-th read call,
and a function saying whether the k-th write call succeeds.  Loops whose
C termination argument is "progress is made every round" are given an
explicit fuel argument together with a fuel-adequacy argument where
needed, so that every definition is executable and concrete runs can be
evaluated by the kernel.
-/

-- ===========================================================================
-- Memory model
-- ===========================================================================

/-- The crashing process's address space: a partial map from addresses to
byte values.  An address where the map is `none` is unmapped; touching it
faults. -/
abbrev Mem := Nat → Option Nat

/-- Read `n` bytes starting at `addr`.  All-or-nothing: `process_vm_readv`
with a single iovec either transfers the whole range or fails, and a
`memcpy` guarded by the fault handler either completes or faults. -/
def readBytes (mem : Mem) : Nat → Nat → Option (List Nat)
  | _, 0 => some []
  | addr, n + 1 =>
    match mem addr, readBytes mem (addr + 1) n with
    | some b, some bs => some (b :: bs)
    | _, _ => none

/-- The bytes a faulting `memcpy` copies before hitting the first unmapped
address: the readable leading run of `[addr, addr+n)`. -/
def readUpTo (mem : Mem) : Nat → Nat → List Nat
  | _, 0 => []
  | addr, n + 1 =>
    match mem addr with
    | some b => b :: readUpTo mem (addr + 1) n
    | none => []

/-- Copy `xs` over the front of buffer `buf`, leaving the tail unchanged
(the effect of `memcpy(buf, src, xs.length)` on a larger buffer). -/
def writeBuf (buf xs : List Nat) : List Nat := xs ++ buf.drop xs.length

-- ===========================================================================
-- Memory server (memserver_read / memserver_entry)
-- ===========================================================================

/-- Wire request record: `struct memserver_req { uint64_t addr; uint64_t len; }`. -/
structure memserver_req where
  addr : Nat
  len : Nat
deriving DecidableEq

/-- One item appearing on the wire from server to client: either a response
header `struct memserver_resp { uint64_t addr; int64_t len; }` or a run of
raw payload bytes. -/
inductive WireItem where
  | resp (addr : Nat) (len : Int)
  | payload (bytes : List Nat)
deriving DecidableEq

/-- Model of `memserver_read(to, from, len)`.  Returns the ssize_t result
and the updated 4096-byte server buffer.

* With `CAP_SYS_PTRACE` (`hasPtrace = true`): `process_vm_readv` with one
  local and one remote iovec — transfers all `len` bytes or returns -1
  leaving the buffer unchanged.
* Without the capability: `sigsetjmp` + `memcpy`.  On success returns
  `len`.  If the copy faults, `memserver_fault` does
  `siglongjmp(memserver_fault_buf, -1)` and the `else` branch of the
  `sigsetjmp` test executes `return 1;` — the literal constant in the
  source — after the copy has deposited the readable leading run of the
  range into the buffer. -/
def memserver_read (hasPtrace : Bool) (mem : Mem) (buf : List Nat)
    (addr len : Nat) : Int × List Nat :=
  if hasPtrace then
    match readBytes mem addr len with
    | some chunk => ((len : Int), writeBuf buf chunk)
    | none => (-1, buf)
  else
    match readBytes mem addr len with
    | some chunk => ((len : Int), writeBuf buf chunk)
    | none => (1, writeBuf buf (readUpTo mem addr len))

/-- A write oracle under which every `safe_write` succeeds. -/
def wok_true : Nat → Bool := fun _ => true

/-- The inner `while (bytes)` loop of `memserver_entry`, serving one request.

State: server buffer `buf`, current `addr`, remaining `bytes`, and the
index `wc` of the next write call (consulted in the write oracle `wok`).
Result: the wire items actually delivered to the peer, the final buffer,
the next write index, and `true` iff no write failed (a failed write is
`goto fail`).

Every executed round advances `bytes` by at least 1 (a successful read
advances by `todo ≥ 1`, the faulting no-ptrace path returns 1), so the
loop runs at most `bytes` rounds; callers pass `fuel = bytes`, which by
`serve_chunks_fuel` is enough fuel for the result to be fuel-independent. -/
def serve_chunks (hp : Bool) (wok : Nat → Bool) (mem : Mem) :
    Nat → List Nat → Nat → Nat → Nat → List WireItem × List Nat × Nat × Bool
  | 0, buf, _, _, wc => ([], buf, wc, true)
  | fuel + 1, buf, addr, bytes, wc =>
    if bytes = 0 then ([], buf, wc, true)
    else
      let todo := min bytes 4096
      let r := memserver_read hp mem buf addr todo
      if wok wc = false then ([], r.2, wc + 1, false)
      else if r.1 < 0 then ([WireItem.resp addr r.1], r.2, wc + 1, true)
      else if wok (wc + 1) = false then ([WireItem.resp addr r.1], r.2, wc + 2, false)
      else
        let rest := serve_chunks hp wok mem fuel r.2 (addr + r.1.toNat)
          (bytes - r.1.toNat) (wc + 2)
        (WireItem.resp addr r.1 :: WireItem.payload (r.2.take r.1.toNat) :: rest.1,
         rest.2.1, rest.2.2.1, rest.2.2.2)

/-- The outer `for (;;)` request loop of `memserver_entry`.

Input is the sequence of `safe_read` outcomes for the 16-byte request
record: `some req` when the full record arrived, `none` when `safe_read`
returned a value different from `sizeof(req)` (a read error), which makes
the loop `break`.  The end of the list also ends the session here; the
behaviour of the source on a peer that closes the stream is modelled
separately by `safe_read` below, because the source never returns from
`safe_read` in that case.

Result: (wire items delivered, the function's `result` value — 0 after a
clean `break`, 1 after `goto fail` — and whether `close(fd)` ran, which in
this model is every exit path). -/
def memserver_entry (hp : Bool) (wok : Nat → Bool) (mem : Mem) :
    List (Option memserver_req) → List Nat → Nat → List WireItem × Int × Bool
  | [], _, _ => ([], 0, true)
  | none :: _, _, _ => ([], 0, true)
  | some req :: rest, buf, wc =>
    let r := serve_chunks hp wok mem req.len buf req.addr req.len wc
    if r.2.2.2 then
      let r2 := memserver_entry hp wok mem rest r.2.1 r.2.2.1
      (r.1 ++ r2.1, r2.2.1, r2.2.2)
    else
      (r.1, 1, true)

/-- Model of `safe_read(fd, buf, len)`.

`reads k` is the result of the k-th `read` call (after the EINTR retry
loop): a positive byte count, `0` at end-of-stream, or a negative error.
The loop is `while (ptr < end)`; on `ret < 0` it returns `ret`, otherwise
it adds `ret` to the running total and to `ptr`.  There is no
`if (ret == 0) break`, so an end-of-stream result makes no progress and
the loop re-issues `read` forever; the fuel argument makes that observable
as `none` (still looping after `fuel` rounds) — `some` is a genuine return. -/
def safe_read (reads : Nat → Int) (want : Nat) : Nat → Nat → Nat → Option Int
  | 0, _, _ => none
  | fuel + 1, k, done =>
    if done < want then
      if reads k < 0 then some (reads k)
      else safe_read reads want fuel (k + 1) (done + (reads k).toNat)
    else some (done : Int)

-- ===========================================================================
-- Wire-output observations
-- ===========================================================================

/-- Number of response headers in a stretch of wire output. -/
def respCount : List WireItem → Nat
  | [] => 0
  | WireItem.resp _ _ :: rest => respCount rest + 1
  | WireItem.payload _ :: rest => respCount rest

/-- The length fields of the response headers, in order. -/
def respLens : List WireItem → List Int
  | [] => []
  | WireItem.resp _ n :: rest => n :: respLens rest
  | WireItem.payload _ :: rest => respLens rest

/-- All payload bytes on the wire, concatenated in order. -/
def concatPayloads : List WireItem → List Nat
  | [] => []
  | WireItem.resp _ _ :: rest => concatPayloads rest
  | WireItem.payload p :: rest => p ++ concatPayloads rest

/-- Per-request framing: each non-negative response header is immediately
followed by exactly that many payload bytes; a negative header has no
payload; no stray payload appears. -/
def framedOK : List WireItem → Bool
  | [] => true
  | WireItem.resp _ n :: rest =>
    if n < 0 then framedOK rest
    else
      match rest with
      | WireItem.payload p :: rest2 => (p.length == n.toNat) && framedOK rest2
      | _ => false
  | WireItem.payload _ :: _ => false

/-- Follows the spec's words (§4.4 protocol loop): while length remains,
copy up to 4096 bytes per round, write a response record
{address, bytes-actually-read}, then that many raw bytes, advancing
address/length by the amount transferred.  `bs` is the source memory
content of the requested range. -/
def chunkedOut (addr : Nat) (bs : List Nat) : List WireItem :=
  if bs.isEmpty then []
  else
    let todo := min bs.length 4096
    WireItem.resp addr (todo : Int) :: WireItem.payload (bs.take todo)
      :: chunkedOut (addr + todo) (bs.drop todo)
termination_by bs.length
decreasing_by
  rename_i h
  have h1 : bs.length ≠ 0 := fun hl => h (List.isEmpty_iff_length_eq_zero.mpr hl)
  simp only [List.length_drop]
  omega

/-- The per-round transfer sizes for a request of `L` bytes that is fully
readable: `min L 4096` per round. -/
def chunkLens (L : Nat) : List Int :=
  if L = 0 then []
  else ((min L 4096 : Nat) : Int) :: chunkLens (L - min L 4096)
termination_by L
decreasing_by
  have : 1 ≤ min L 4096 := by omega
  omega

-- Concrete fixtures used by the closed-run theorems.

/-- A memory in which no address is mapped. -/
def mem_unmapped : Mem := fun _ => none

/-- A memory in which every address reads as byte 0. -/
def mem_zero : Mem := fun _ => some 0

/-- The zero-initialized global `char memserver_buffer[4096]`. -/
def memserver_buffer0 : List Nat := List.replicate 4096 0

-- ===========================================================================
-- Thread registry (reset_threads / add_thread / seen_thread)
-- ===========================================================================

/-- Model of `reset_threads(first)`: the release store that overwrites
`crashInfo.thread_list` with the record of the crashing thread, discarding
whatever list `prev` held.  The new head record's `next` field is 0, so
the registry is exactly `[first]`. -/
def reset_threads (prev : List Int) (first : Int) : List Int :=
  let _ := prev
  [first]

/-- Model of `add_thread(thread)`: the compare-and-swap retry loop whose
net effect is to push the record on the front of the list. -/
def add_thread (l : List Int) (tid : Int) : List Int := tid :: l

/-- Model of `seen_thread(tid)`: walk the list from the head, comparing
each record's `tid` field. -/
def seen_thread : List Int → Int → Bool
  | [], _ => false
  | t :: rest, tid => if t = tid then true else seen_thread rest tid

-- ===========================================================================
-- Thread suspension coordinator (suspend_other_threads / wait_paused)
-- ===========================================================================

/-- One pass of the `do { ... } while (old_thread_count != thread_count)`
loop in `suspend_other_threads`, given the set of thread ids listed in
/proc/self/task (`tids`) and which of them respond to SIGPROF by running
`pause_thread` before `wait_paused` gives up (`responsive`).

The scan signals every listed tid that is neither the calling thread nor
already in the registry, incrementing `thread_count` once per signal; by
the end of the `wait_paused(thread_count, 5s)` window every responsive
signalled thread has run `pause_thread`, i.e. pushed itself onto the
registry (and bumped the pause counter).  A thread that never responds is
signalled but never registers.  Returns the new registry and the number
of signals sent this pass (`thread_count - old_thread_count`). -/
def suspend_pass (responsive : Int → Bool) (tids : List Int) (self : Int)
    (reg : List Int) : List Int × Nat :=
  let signaled := tids.filter (fun t => !(t == self) && !(seen_thread reg t))
  ((signaled.filter responsive).foldl add_thread reg, signaled.length)

/-- The coordinator's pass loop.  The source repeats passes until a full
pass sends zero new signals; `fuel` bounds the number of passes we run,
with `none` meaning the loop was still running when the fuel ran out
(each pass takes up to the 5-second `wait_paused` timeout of real time). -/
def suspend_loop (responsive : Int → Bool) (tids : List Int) (self : Int) :
    Nat → List Int → Option (List Int)
  | 0, _ => none
  | fuel + 1, reg =>
    let p := suspend_pass responsive tids self reg
    if p.2 = 0 then some p.1 else suspend_loop responsive tids self fuel p.1

/-- Model of `suspend_other_threads(self)`: take the lock, reset the
registry to the calling thread's own record, then run passes until one
adds zero new threads. -/
def suspend_other_threads (responsive : Int → Bool) (tids : List Int)
    (self : Int) (prev : List Int) (fuel : Nat) : Option (List Int) :=
  suspend_loop responsive tids self fuel (reset_threads prev self)

-- ===========================================================================
-- Crash signal handler (handle_fatal_signal)
-- ===========================================================================

/-- The observable steps of `handle_fatal_signal`, in source order. -/
inductive HEvent where
  | suspendOtherThreads
  | resetSignal (signum : Nat)
  | captureInfo
  | memserverStart
  | runBacktracer
  | resumeOtherThreads
deriving DecidableEq, BEq

def SIGQUIT : Nat := 3
def SIGILL : Nat := 4
def SIGTRAP : Nat := 5
def SIGABRT : Nat := 6
def SIGBUS : Nat := 7
def SIGFPE : Nat := 8
def SIGSEGV : Nat := 11

/-- The `signalsToHandle` table from the source, in its order. -/
def signalsToHandle : List Nat :=
  [SIGQUIT, SIGABRT, SIGBUS, SIGFPE, SIGILL, SIGSEGV, SIGTRAP]

/-- Thread-local state visible to the handler model: the errno value and
the trace of steps performed so far. -/
structure SigState where
  errno : Int
  trace : List HEvent

/-- Perform one step: record it in the trace; the step may clobber errno
(every syscall can), modelled by the oracle `clob`. -/
def emit (clob : HEvent → Int) (e : HEvent) (s : SigState) : SigState :=
  ⟨clob e, s.trace ++ [e]⟩

/-- Model of `handle_fatal_signal`, compiled as in the source with
`MEMSERVER_USE_PROCESS = 0` (the in-thread memory server), which is why
SIGSEGV and SIGBUS are reset a second time after the backtracer returns.
`int old_err = errno` at entry; `errno = old_err` before returning. -/
def handle_fatal_signal (clob : HEvent → Int) (s : SigState) : SigState :=
  let old_err := s.errno
  let s := emit clob HEvent.suspendOtherThreads s
  let s := List.foldl (fun st sig => emit clob (HEvent.resetSignal sig) st) s signalsToHandle
  let s := emit clob HEvent.captureInfo s
  let s := emit clob HEvent.memserverStart s
  let s := emit clob HEvent.runBacktracer s
  let s := emit clob (HEvent.resetSignal SIGSEGV) s
  let s := emit clob (HEvent.resetSignal SIGBUS) s
  let s := emit clob HEvent.resumeOtherThreads s
  ⟨old_err, s.trace⟩

-- ===========================================================================
-- Signal-safe formatting (format_address / format_unsigned)
-- ===========================================================================

/-- The C string terminator. -/
def NUL : Char := Char.ofNat 0

/-- The digit computation in `format_address`:
`digit = '0' + (addr & 0xf); if (digit > '9') digit += 'a' - '0' - 10;`. -/
def hexDigitChar (v : Nat) : Char :=
  let d := 48 + v
  Char.ofNat (if 57 < d then d + 39 else d)

/-- The digit computation in `format_unsigned`: `digit = '0' + (u % 10)`. -/
def decDigitChar (v : Nat) : Char := Char.ofNat (48 + v)

/-- The right-to-left digit loop of `format_address`: `p` is the current
pointer offset into the buffer (the next write goes to index `p - 1`);
the loop guard is `ptr > buffer`, i.e. `p > 0`.  Returns the final
pointer offset and the updated buffer. -/
def format_address_loop : Nat → Nat → List Char → Nat × List Char
  | _, 0, buf => (0, buf)
  | addr, q + 1, buf =>
    let buf2 := buf.set q (hexDigitChar (addr % 16))
    if addr / 16 = 0 then (q, buf2) else format_address_loop (addr / 16) q buf2

/-- The right-to-left digit loop of `format_unsigned` (base 10). -/
def format_unsigned_loop : Nat → Nat → List Char → Nat × List Char
  | _, 0, buf => (0, buf)
  | u, q + 1, buf =>
    let buf2 := buf.set q (decDigitChar (u % 10))
    if u / 10 = 0 then (q, buf2) else format_unsigned_loop (u / 10) q buf2

/-- The left-justify loop, identical in both formatters:
`pt2 = buffer; while (*ptr) *pt2++ = *ptr++; *pt2++ = '\0';`.
`src` is the offset of `ptr`, `dst` of `pt2`.  (In every use `src` stays
within the buffer because index 17/21 always holds NUL.) -/
def justify_loop : List Char → Nat → Nat → List Char
  | buf, src, dst =>
    match h : buf.get? src with
    | some c =>
      if c = NUL then buf.set dst NUL
      else justify_loop (buf.set dst c) (src + 1) (dst + 1)
    | none => buf.set dst NUL
termination_by buf src => buf.length - src
decreasing_by
  have : src < buf.length := List.get?_eq_some.mp h |>.1
  simp only [List.length_set]
  omega

/-- Model of `format_address(addr, buffer)`: returns the final content of
the 18-byte buffer (a zero-initialized global).  `*--ptr = '\0'` writes
index 17; the digit loop then runs from offset 17; if the result does not
start at the buffer the justify loop copies it there. -/
def format_address (addr : Nat) : List Char :=
  let buf := List.replicate 18 NUL
  let buf := buf.set 17 NUL
  let r := format_address_loop addr 17 buf
  if 0 < r.1 then justify_loop r.2 r.1 0 else r.2

/-- Model of `format_unsigned(u, buffer)` over its 22-byte buffer. -/
def format_unsigned (u : Nat) : List Char :=
  let buf := List.replicate 22 NUL
  let buf := buf.set 21 NUL
  let r := format_unsigned_loop u 21 buf
  if 0 < r.1 then justify_loop r.2 r.1 0 else r.2

/-- The content of a buffer read as a C string: the characters before the
first NUL. -/
def cstr (buf : List Char) : List Char := buf.takeWhile (fun c => !(c == NUL))

/-- Reference hexadecimal representation (most significant digit first)
built from the source's digit function. -/
def hexRepChars (n : Nat) : List Char :=
  if n < 16 then [hexDigitChar n]
  else hexRepChars (n / 16) ++ [hexDigitChar (n % 16)]
termination_by n
decreasing_by
  exact Nat.div_lt_self (by omega) (by omega)

/-- Reference decimal representation built from the source's digit
function. -/
def decRepChars (n : Nat) : List Char :=
  if n < 10 then [decDigitChar n]
  else decRepChars (n / 10) ++ [decDigitChar (n % 10)]
termination_by n
decreasing_by
  exact Nat.div_lt_self (by omega) (by omega)

-- ===========================================================================
-- Backtracer launcher (backtracer_argv / trueOrFalse / run_backtracer)
-- ===========================================================================

/-- Modelled from the spec: the unwind-algorithm enumeration of the
settings structure (declared in a header outside this tree); the source
switches on `Fast` with a default arm, and the spec names the values
fast/precise plus an automatic default. -/
inductive UnwindAlgorithm where
  | Auto
  | Fast
  | Precise
deriving DecidableEq

/-- Modelled from the spec: a tri-state on/off/if-a-terminal setting (the
source compares against `OnOffTty::On` and notes the TTY case has been
resolved before `run_backtracer` runs). -/
inductive OnOffTty where
  | Off
  | On
  | TTY
deriving DecidableEq

/-- Modelled from the spec: thread display mode (the source switches on
Preset/All/Crashed). -/
inductive ThreadsToShow where
  | Preset
  | All
  | Crashed
deriving DecidableEq

/-- Modelled from the spec: register display mode (the source switches on
Preset/None/All/Crashed). -/
inductive RegistersToShow where
  | Preset
  | None
  | All
  | Crashed
deriving DecidableEq

/-- Modelled from the spec: image display mode (the source switches on
Preset/None/All/Mentioned). -/
inductive ImagesToShow where
  | Preset
  | None
  | All
  | Mentioned
deriving DecidableEq

/-- Modelled from the spec: report preset (the source switches on
Friendly/Medium with a default arm producing "full"). -/
inductive Preset where
  | Auto
  | Friendly
  | Medium
  | Full
deriving DecidableEq

/-- Modelled from the spec: path sanitization mode (the source switches on
Preset/Off/On). -/
inductive SanitizePaths where
  | Preset
  | Off
  | On
deriving DecidableEq

/-- Modelled from the spec: output target (the source switches on Stdout,
and on Auto — "Shouldn't happen, but if it does pick stderr" — falling
through to Stderr). -/
inductive OutputTo where
  | Auto
  | Stdout
  | Stderr
deriving DecidableEq

/-- Modelled from the spec: the `_swift_backtraceSettings` structure,
restricted to the fields `run_backtracer` reads.  `timeout`, `top` are C
`unsigned`; `limit` is a signed C `int` (negative means unlimited). -/
structure BacktraceSettings where
  algorithm : UnwindAlgorithm
  demangle : OnOffTty
  interactive : OnOffTty
  color : OnOffTty
  timeout : Nat
  preset : Preset
  threads : ThreadsToShow
  registers : RegistersToShow
  images : ImagesToShow
  limit : Int
  top : Nat
  sanitize : SanitizePaths
  cache : OnOffTty
  outputTo : OutputTo

/-- `trueOrFalse(bool)`. -/
def trueOrFalse (b : Bool) : String := if b then "true" else "false"

/-- `trueOrFalse(OnOffTty)`: `trueOrFalse(oot == OnOffTty::On)`. -/
def trueOrFalseTty (oot : OnOffTty) : String :=
  trueOrFalse (oot == OnOffTty.On)

/-- The global `backtracer_argv` template, as initialized at load time.
The slots that point at the formatting buffers (`timeout_buf`, `addr_buf`,
`limit_buf`, `top_buf`, indices 10/14/22/24) read as empty strings while
those zero-initialized global buffers are untouched.  The terminating
NULL entry is not part of the list. -/
def backtracer_argv : List String :=
  ["swift-backtrace",
   "--unwind", "precise",
   "--demangle", "true",
   "--interactive", "true",
   "--color", "true",
   "--timeout", "",
   "--preset", "friendly",
   "--crashinfo", "",
   "--threads", "preset",
   "--registers", "preset",
   "--images", "preset",
   "--limit", "",
   "--top", "",
   "--sanitize", "preset",
   "--cache", "true",
   "--output-to", "stdout"]

/-- Model of `run_backtracer(fd)` up to the final call to
`_swift_spawnBacktracer(backtracer_argv, memserver_fd)`: the argument
vector it hands to the spawn facility.  Each `argv[i] = ...` assignment of
the source becomes a `List.set`, in source order; the four `format_*`
calls fill the buffer-backed slots; `crashInfoAddr` is the address of the
global `crashInfo` structure (`format_address(&crashInfo, addr_buf)`). -/
def run_backtracer (s : BacktraceSettings) (crashInfoAddr : Nat) : List String :=
  let argv := backtracer_argv
  let argv := argv.set 2 (match s.algorithm with
    | UnwindAlgorithm.Fast => "fast"
    | _ => "precise")
  let argv := argv.set 4 (trueOrFalseTty s.demangle)
  let argv := argv.set 6 (trueOrFalseTty s.interactive)
  let argv := argv.set 8 (trueOrFalseTty s.color)
  let argv := argv.set 16 (match s.threads with
    | ThreadsToShow.Preset => "preset"
    | ThreadsToShow.All => "all"
    | ThreadsToShow.Crashed => "crashed")
  let argv := argv.set 18 (match s.registers with
    | RegistersToShow.Preset => "preset"
    | RegistersToShow.None => "none"
    | RegistersToShow.All => "all"
    | RegistersToShow.Crashed => "crashed")
  let argv := argv.set 20 (match s.images with
    | ImagesToShow.Preset => "preset"
    | ImagesToShow.None => "none"
    | ImagesToShow.All => "all"
    | ImagesToShow.Mentioned => "mentioned")
  let argv := argv.set 12 (match s.preset with
    | Preset.Friendly => "friendly"
    | Preset.Medium => "medium"
    | _ => "full")
  let argv := argv.set 26 (match s.sanitize with
    | SanitizePaths.Preset => "preset"
    | SanitizePaths.Off => "false"
    | SanitizePaths.On => "true")
  let argv := argv.set 30 (match s.outputTo with
    | OutputTo.Stdout => "stdout"
    | OutputTo.Auto => "stderr"
    | OutputTo.Stderr => "stderr")
  let argv := argv.set 28 (trueOrFalseTty s.cache)
  let argv := argv.set 10 (cstr (format_unsigned s.timeout)).asString
  let argv := argv.set 22 (if s.limit < 0 then "none"
    else (cstr (format_unsigned s.limit.toNat)).asString)
  let argv := argv.set 24 (cstr (format_unsigned s.top)).asString
  let argv := argv.set 14 (cstr (format_address crashInfoAddr)).asString
  argv

/-- The coordinator returns for some number of passes (i.e. the pass loop
exits) on the given inputs. -/
def suspend_terminates (responsive : Int → Bool) (tids : List Int)
    (self : Int) (prev : List Int) : Prop :=
  ∃ fuel, (suspend_other_threads responsive tids self prev fuel).isSome = true

-- ===========================================================================
-- Supporting lemmas: memory reads
-- ===========================================================================

lemma readBytes_length (mem : Mem) : ∀ (n addr : Nat) (bs : List Nat),
    readBytes mem addr n = some bs → bs.length = n := by
  intro n
  induction n with
  | zero =>
    intro addr bs h
    simp only [readBytes, Option.some.injEq] at h
    simp [← h]
  | succ m ih =>
    intro addr bs h
    simp only [readBytes] at h
    rcases hm : mem addr with _ | b <;> rw [hm] at h
    · exact absurd h (by simp)
    · rcases hr : readBytes mem (addr + 1) m with _ | bs2 <;> rw [hr] at h
      · exact absurd h (by simp)
      · simp only [Option.some.injEq] at h
        subst h
        simp [ih (addr + 1) bs2 hr]

lemma readBytes_split (mem : Mem) : ∀ (t n addr : Nat) (bs : List Nat),
    t ≤ n → readBytes mem addr n = some bs →
    readBytes mem addr t = some (bs.take t) ∧
      readBytes mem (addr + t) (n - t) = some (bs.drop t) := by
  intro t
  induction t with
  | zero =>
    intro n addr bs _ h
    simpa [readBytes] using h
  | succ u ih =>
    intro n addr bs ht h
    rcases n with _ | m
    · omega
    · simp only [readBytes] at h
      rcases hm : mem addr with _ | b <;> rw [hm] at h
      · exact absurd h (by simp)
      · rcases hr : readBytes mem (addr + 1) m with _ | bs2 <;> rw [hr] at h
        · exact absurd h (by simp)
        · simp only [Option.some.injEq] at h
          subst h
          obtain ⟨ih1, ih2⟩ := ih m (addr + 1) bs2 (by omega) hr
          constructor
          · simp only [readBytes, hm, ih1, List.take_succ_cons]
          · have : addr + (u + 1) = addr + 1 + u := by omega
            rw [this]
            simpa using ih2

lemma memserver_read_some (hp : Bool) (mem : Mem) (buf : List Nat)
    (addr len : Nat) (chunk : List Nat) (h : readBytes mem addr len = some chunk) :
    memserver_read hp mem buf addr len = ((len : Int), writeBuf buf chunk) := by
  unfold memserver_read
  rw [h]
  cases hp <;> simp

-- ===========================================================================
-- Supporting lemmas: the serve loop on fully readable memory
-- ===========================================================================

lemma serve_chunks_readable (hp : Bool) (mem : Mem) : ∀ (L fuel addr wc : Nat)
    (buf bs : List Nat), readBytes mem addr L = some bs → L ≤ fuel →
    ∃ buf2 wc2, serve_chunks hp wok_true mem fuel buf addr L wc
      = (chunkedOut addr bs, buf2, wc2, true) := by
  intro L
  induction L using Nat.strong_induction_on with
  | _ L ih =>
    intro fuel addr wc buf bs hrb hfuel
    rcases L with _ | l
    · have hbs : bs = [] := by
        have := readBytes_length mem 0 addr bs hrb
        simpa using this
      subst hbs
      rw [chunkedOut]
      rcases fuel with _ | f <;> simp [serve_chunks]
    · obtain ⟨f, rfl⟩ : ∃ f, fuel = f + 1 := ⟨fuel - 1, by omega⟩
      have hlen : bs.length = l + 1 := readBytes_length mem _ _ _ hrb
      have htodo1 : 1 ≤ min (l + 1) 4096 := by omega
      have htodoL : min (l + 1) 4096 ≤ l + 1 := by omega
      obtain ⟨h1, h2⟩ := readBytes_split mem (min (l + 1) 4096) (l + 1) addr bs htodoL hrb
      have hread := memserver_read_some hp mem buf addr (min (l + 1) 4096) _ h1
      have hlt : l + 1 - min (l + 1) 4096 < l + 1 := by omega
      obtain ⟨buf2, wc2, hrec⟩ := ih (l + 1 - min (l + 1) 4096) hlt f (addr + min (l + 1) 4096)
        (wc + 2) (writeBuf buf (bs.take (min (l + 1) 4096))) (bs.drop (min (l + 1) 4096))
        h2 (by omega)
      have htake : (writeBuf buf (bs.take (min (l + 1) 4096))).take (min (l + 1) 4096)
          = bs.take (min (l + 1) 4096) := by
        have hlt2 : (bs.take (min (l + 1) 4096)).length = min (l + 1) 4096 := by
          simp only [List.length_take, hlen]
          omega
        unfold writeBuf
        exact List.take_left' hlt2
      simp only [serve_chunks, Nat.succ_ne_zero, if_false, hread, wok_true,
        Bool.true_eq_false, if_neg (show ¬ (l + 1 = 0) by omega)]
      rw [if_neg (show ¬ (((min (l + 1) 4096 : Nat) : Int) < 0) by omega)]
      simp only [Int.toNat_ofNat]
      rw [hrec, htake]
      refine ⟨buf2, wc2, ?_⟩
      conv_rhs => rw [chunkedOut]
      rw [if_neg (show ¬ (bs.isEmpty = true) by
        intro hemp
        rw [List.isEmpty_iff_length_eq_zero, hlen] at hemp
        omega)]
      simp [hlen]

lemma memserver_entry_single (hp : Bool) (mem : Mem) (addr L : Nat)
    (bs buf : List Nat) (wc : Nat) (h : readBytes mem addr L = some bs) :
    (memserver_entry hp wok_true mem [some ⟨addr, L⟩] buf wc).1
      = chunkedOut addr bs := by
  obtain ⟨buf2, wc2, hrun⟩ :=
    serve_chunks_readable hp mem L L addr wc buf bs h (le_refl L)
  simp only [memserver_entry]
  rw [hrun]
  simp [memserver_entry]

lemma respCount_chunkedOut : ∀ (n : Nat) (bs : List Nat) (addr : Nat),
    bs.length = n → respCount (chunkedOut addr bs) = (n + 4095) / 4096 := by
  intro n
  induction n using Nat.strong_induction_on with
  | _ n ih =>
    intro bs addr hlen
    by_cases hbs : bs = []
    · subst hbs
      simp only [List.length_nil] at hlen
      rw [chunkedOut]
      simp [respCount]
      omega
    · have hne : bs.isEmpty = false := by
        rcases bs with _ | ⟨b, rest⟩
        · exact absurd rfl hbs
        · rfl
      have hn1 : 1 ≤ n := by
        rcases bs with _ | ⟨b, rest⟩
        · exact absurd rfl hbs
        · simp at hlen; omega
      have hdrop : (bs.drop (min bs.length 4096)).length = n - min n 4096 := by
        simp [List.length_drop, hlen]
      rw [chunkedOut, if_neg (by simp [hne])]
      simp only [respCount]
      rw [ih (n - min n 4096) (by omega) _ _ hdrop]
      omega

lemma framedOK_chunkedOut : ∀ (n : Nat) (bs : List Nat) (addr : Nat),
    bs.length = n → framedOK (chunkedOut addr bs) = true := by
  intro n
  induction n using Nat.strong_induction_on with
  | _ n ih =>
    intro bs addr hlen
    by_cases hbs : bs = []
    · subst hbs
      rw [chunkedOut]
      simp [framedOK]
    · have hne : bs.isEmpty = false := by
        rcases bs with _ | ⟨b, rest⟩
        · exact absurd rfl hbs
        · rfl
      have hn1 : 1 ≤ n := by
        rcases bs with _ | ⟨b, rest⟩
        · exact absurd rfl hbs
        · simp at hlen; omega
      have hdrop : (bs.drop (min bs.length 4096)).length = n - min n 4096 := by
        simp [List.length_drop, hlen]
      have hplen : (bs.take (min bs.length 4096)).length = min bs.length 4096 := by
        rw [List.length_take]
        omega
      rw [chunkedOut, if_neg (by simp [hne])]
      simp only [framedOK, Int.toNat_ofNat]
      rw [if_neg (show ¬ (((min bs.length 4096 : Nat) : Int) < 0) by omega)]
      rw [ih (n - min n 4096) (by omega) _ _ hdrop]
      rw [hplen]
      simp

lemma concatPayloads_chunkedOut : ∀ (n : Nat) (bs : List Nat) (addr : Nat),
    bs.length = n → concatPayloads (chunkedOut addr bs) = bs := by
  intro n
  induction n using Nat.strong_induction_on with
  | _ n ih =>
    intro bs addr hlen
    by_cases hbs : bs = []
    · subst hbs
      rw [chunkedOut]
      simp [concatPayloads]
    · have hne : bs.isEmpty = false := by
        rcases bs with _ | ⟨b, rest⟩
        · exact absurd rfl hbs
        · rfl
      have hn1 : 1 ≤ n := by
        rcases bs with _ | ⟨b, rest⟩
        · exact absurd rfl hbs
        · simp at hlen; omega
      have hdrop : (bs.drop (min bs.length 4096)).length = n - min n 4096 := by
        simp [List.length_drop, hlen]
      rw [chunkedOut, if_neg (by simp [hne])]
      simp only [concatPayloads]
      rw [ih (n - min n 4096) (by omega) _ _ hdrop]
      exact List.take_append_drop _ bs

lemma respLens_chunkedOut : ∀ (n : Nat) (bs : List Nat) (addr : Nat),
    bs.length = n → respLens (chunkedOut addr bs) = chunkLens n := by
  intro n
  induction n using Nat.strong_induction_on with
  | _ n ih =>
    intro bs addr hlen
    by_cases hbs : bs = []
    · subst hbs
      simp only [List.length_nil] at hlen
      subst hlen
      rw [chunkedOut, chunkLens]
      simp [respLens]
    · have hne : bs.isEmpty = false := by
        rcases bs with _ | ⟨b, rest⟩
        · exact absurd rfl hbs
        · rfl
      have hn1 : 1 ≤ n := by
        rcases bs with _ | ⟨b, rest⟩
        · exact absurd rfl hbs
        · simp at hlen; omega
      have hdrop : (bs.drop (min bs.length 4096)).length = n - min n 4096 := by
        simp [List.length_drop, hlen]
      rw [chunkedOut, chunkLens, if_neg (by simp [hne]),
        if_neg (show ¬ (n = 0) by omega)]
      simp only [respLens]
      rw [ih (n - min n 4096) (by omega) _ _ hdrop]
      rw [hlen]

lemma memserver_read_cases (hp : Bool) (mem : Mem) (buf : List Nat)
    (addr len : Nat) :
    (memserver_read hp mem buf addr len).1 = (len : Int)
    ∨ (memserver_read hp mem buf addr len).1 = -1
    ∨ (memserver_read hp mem buf addr len).1 = 1 := by
  unfold memserver_read
  cases hp <;> rcases readBytes mem addr len with _ | c <;> simp

lemma serve_chunks_fuel (hp : Bool) (wok : Nat → Bool) (mem : Mem) :
    ∀ (n f1 f2 addr wc : Nat) (buf : List Nat), n ≤ f1 → n ≤ f2 →
    serve_chunks hp wok mem f1 buf addr n wc
      = serve_chunks hp wok mem f2 buf addr n wc := by
  intro n
  induction n using Nat.strong_induction_on with
  | _ n ih =>
    intro f1 f2 addr wc buf h1 h2
    rcases n with _ | l
    · rcases f1 with _ | a <;> rcases f2 with _ | b <;> simp [serve_chunks]
    · obtain ⟨a, rfl⟩ : ∃ a, f1 = a + 1 := ⟨f1 - 1, by omega⟩
      obtain ⟨b, rfl⟩ : ∃ b, f2 = b + 1 := ⟨f2 - 1, by omega⟩
      simp only [serve_chunks]
      by_cases hw : wok wc = false
      · simp [hw]
      · by_cases hr : (memserver_read hp mem buf addr (min (l + 1) 4096)).1 < 0
        · simp [hw, hr]
        · by_cases hw2 : wok (wc + 1) = false
          · simp [hw, hr, hw2]
          · have hpos :
                1 ≤ (memserver_read hp mem buf addr (min (l + 1) 4096)).1.toNat := by
              rcases memserver_read_cases hp mem buf addr (min (l + 1) 4096)
                with h | h | h
              · rw [h]
                simp only [Int.toNat_ofNat]
                omega
              · rw [h] at hr
                omega
              · rw [h]
                simp
            have heq := ih
              ((l + 1) - (memserver_read hp mem buf addr (min (l + 1) 4096)).1.toNat)
              (by omega) a b
              (addr + (memserver_read hp mem buf addr (min (l + 1) 4096)).1.toNat)
              (wc + 2) (memserver_read hp mem buf addr (min (l + 1) 4096)).2
              (by omega) (by omega)
            simp [hw, hr, hw2, heq]

-- ===========================================================================
-- Supporting lemmas: thread registry and suspension
-- ===========================================================================

lemma seen_thread_cons (t : Int) (l : List Int) (tid : Int) :
    seen_thread (t :: l) tid = (t == tid || seen_thread l tid) := by
  by_cases h : t = tid <;> simp [seen_thread, h]

lemma seen_thread_foldl : ∀ (ts reg : List Int) (t : Int),
    seen_thread (List.foldl add_thread reg ts) t
      = (ts.contains t || seen_thread reg t) := by
  intro ts
  induction ts with
  | nil =>
    intro reg t
    simp [List.contains]
  | cons x ts ih =>
    intro reg t
    simp only [List.foldl_cons]
    rw [ih]
    by_cases h : x = t
    · subst h
      simp [add_thread, seen_thread_cons, List.contains_cons]
    · have h1 : (x == t) = false := by simp [h]
      have h2 : (t == x) = false := by simp [Ne.symm h]
      simp [add_thread, seen_thread_cons, List.contains_cons, h1, h2,
        decide_eq_false (show ¬ t = x from Ne.symm h)]

lemma suspend_loop_unresponsive : ∀ fuel : Nat,
    suspend_loop (fun _ => false) [1, 2] 1 fuel [1] = none := by
  intro fuel
  induction fuel with
  | zero => rfl
  | succ f ih =>
    have hpass : suspend_pass (fun _ => false) [1, 2] 1 [1] = ([1], 1) := by decide
    simp only [suspend_loop, hpass]
    simpa using ih

lemma suspend_loop_responsive (responsive : Int → Bool) (tids : List Int)
    (self : Int) (hresp : ∀ t ∈ tids, responsive t = true) :
    ∀ (reg : List Int) (f : Nat),
    (suspend_loop responsive tids self (f + 2) reg).isSome = true := by
  intro reg f
  simp only [suspend_loop, suspend_pass]
  by_cases h0 : (tids.filter (fun t => !(t == self) && !(seen_thread reg t))).length = 0
  · simp [h0]
  · rw [if_neg h0]
    set reg1 := ((tids.filter
      (fun t => !(t == self) && !(seen_thread reg t))).filter responsive).foldl
        add_thread reg with hreg1
    have hsig2 : tids.filter (fun t => !(t == self) && !(seen_thread reg1 t)) = [] := by
      rw [List.filter_eq_nil_iff]
      intro t ht
      by_cases hts : t = self
      · subst hts
        simp
      · have hseent : seen_thread reg1 t = true := by
          rw [hreg1, seen_thread_foldl]
          by_cases hseen : seen_thread reg t = true
          · simp [hseen]
          · have hmem : t ∈ (tids.filter
                (fun t => !(t == self) && !(seen_thread reg t))).filter responsive := by
              rw [List.mem_filter, List.mem_filter]
              refine ⟨⟨ht, ?_⟩, hresp t ht⟩
              simp [hts, hseen]
            have hcont : ((tids.filter
                (fun t => !(t == self) && !(seen_thread reg t))).filter
                  responsive).contains t = true :=
              List.elem_eq_true_of_mem hmem
            rw [hcont]
            simp
        simp [hseent]
    simp only [suspend_loop, suspend_pass, hsig2]
    simp

lemma suspend_other_threads_responsive (responsive : Int → Bool)
    (tids : List Int) (self : Int) (prev : List Int) (fuel : Nat)
    (hresp : ∀ t ∈ tids, responsive t = true) (hfuel : 2 ≤ fuel) :
    (suspend_other_threads responsive tids self prev fuel).isSome = true := by
  obtain ⟨f, rfl⟩ : ∃ f, fuel = f + 2 := ⟨fuel - 2, by omega⟩
  exact suspend_loop_responsive responsive tids self hresp _ f

-- ===========================================================================
-- Supporting lemmas: formatting
-- ===========================================================================

lemma take_set_of_le {α : Type} : ∀ (l : List α) (i j : Nat) (a : α), i ≤ j →
    (l.set j a).take i = l.take i
  | [], _, _, _, _ => by simp
  | _ :: _, 0, _, _, _ => by simp
  | _ :: _, i + 1, 0, _, h => by exact absurd h (by omega)
  | x :: xs, i + 1, j + 1, a, h => by
    simp only [List.set_cons_succ, List.take_succ_cons]
    rw [take_set_of_le xs i j a (by omega)]

lemma drop_set_self {α : Type} (l : List α) (j : Nat) (a : α) (h : j < l.length) :
    (l.set j a).drop j = a :: l.drop (j + 1) := by
  rw [List.set_eq_take_append_cons_drop, if_pos h]
  have hl : (l.take j).length = j := by rw [List.length_take]; omega
  calc (l.take j ++ a :: l.drop (j + 1)).drop j
      = (l.take j ++ a :: l.drop (j + 1)).drop (l.take j).length := by rw [hl]
    _ = a :: l.drop (j + 1) := List.drop_left _ _

lemma take_succ_set {α : Type} (l : List α) (j : Nat) (a : α) (h : j < l.length) :
    (l.set j a).take (j + 1) = l.take j ++ [a] := by
  rw [List.set_eq_take_append_cons_drop, if_pos h]
  rw [List.take_append_eq_append_take]
  have hl : (l.take j).length = j := by rw [List.length_take]; omega
  rw [List.take_of_length_le (by omega), hl]
  simp

lemma hexDigitChar_eq_digitChar : ∀ v < 16, hexDigitChar v = Nat.digitChar v := by
  decide

lemma decDigitChar_eq_digitChar : ∀ v < 10, decDigitChar v = Nat.digitChar v := by
  decide

lemma hexDigitChar_ne_NUL : ∀ v < 16, hexDigitChar v ≠ NUL := by decide

lemma decDigitChar_ne_NUL : ∀ v < 10, decDigitChar v ≠ NUL := by decide

lemma hexRepChars_ne_NUL : ∀ (n : Nat), ∀ c ∈ hexRepChars n, c ≠ NUL := by
  intro n
  induction n using Nat.strong_induction_on with
  | _ n ih =>
    intro c hc
    rw [hexRepChars] at hc
    by_cases h : n < 16
    · rw [if_pos h] at hc
      simp at hc
      subst hc
      exact hexDigitChar_ne_NUL n h
    · rw [if_neg h] at hc
      rcases List.mem_append.mp hc with h1 | h2
      · exact ih (n / 16) (Nat.div_lt_self (by omega) (by omega)) c h1
      · simp at h2
        subst h2
        exact hexDigitChar_ne_NUL _ (Nat.mod_lt _ (by omega))

lemma decRepChars_ne_NUL : ∀ (n : Nat), ∀ c ∈ decRepChars n, c ≠ NUL := by
  intro n
  induction n using Nat.strong_induction_on with
  | _ n ih =>
    intro c hc
    rw [decRepChars] at hc
    by_cases h : n < 10
    · rw [if_pos h] at hc
      simp at hc
      subst hc
      exact decDigitChar_ne_NUL n h
    · rw [if_neg h] at hc
      rcases List.mem_append.mp hc with h1 | h2
      · exact ih (n / 10) (Nat.div_lt_self (by omega) (by omega)) c h1
      · simp at h2
        subst h2
        exact decDigitChar_ne_NUL _ (Nat.mod_lt _ (by omega))

lemma hexRepChars_length : ∀ (n k : Nat), n < 16 ^ (k + 1) →
    (hexRepChars n).length ≤ k + 1 := by
  intro n
  induction n using Nat.strong_induction_on with
  | _ n ih =>
    intro k hn
    rw [hexRepChars]
    by_cases h : n < 16
    · rw [if_pos h]
      simp
    · rw [if_neg h]
      have hd : n / 16 < 16 ^ k := by
        rw [Nat.div_lt_iff_lt_mul (by omega)]
        calc n < 16 ^ (k + 1) := hn
          _ = 16 ^ k * 16 := by ring
      rcases k with _ | k2
      · have h16 : (16 : Nat) ^ (0 + 1) = 16 := by norm_num
        rw [h16] at hn
        omega
      · have := ih (n / 16) (Nat.div_lt_self (by omega) (by omega)) k2 hd
        simp only [List.length_append, List.length_cons, List.length_nil]
        omega

lemma decRepChars_length : ∀ (n k : Nat), n < 10 ^ (k + 1) →
    (decRepChars n).length ≤ k + 1 := by
  intro n
  induction n using Nat.strong_induction_on with
  | _ n ih =>
    intro k hn
    rw [decRepChars]
    by_cases h : n < 10
    · rw [if_pos h]
      simp
    · rw [if_neg h]
      have hd : n / 10 < 10 ^ k := by
        rw [Nat.div_lt_iff_lt_mul (by omega)]
        calc n < 10 ^ (k + 1) := hn
          _ = 10 ^ k * 10 := by ring
      rcases k with _ | k2
      · have h10 : (10 : Nat) ^ (0 + 1) = 10 := by norm_num
        rw [h10] at hn
        omega
      · have := ih (n / 10) (Nat.div_lt_self (by omega) (by omega)) k2 hd
        simp only [List.length_append, List.length_cons, List.length_nil]
        omega

lemma toDigitsCore_16_eq : ∀ (n fuel : Nat) (ds : List Char), n < fuel →
    Nat.toDigitsCore 16 fuel n ds = hexRepChars n ++ ds := by
  intro n
  induction n using Nat.strong_induction_on with
  | _ n ih =>
    intro fuel ds hf
    obtain ⟨f, rfl⟩ : ∃ f, fuel = f + 1 := ⟨fuel - 1, by omega⟩
    simp only [Nat.toDigitsCore]
    by_cases h : n / 16 = 0
    · rw [if_pos h]
      have hn16 : n < 16 := by
        by_contra hge
        have : 1 ≤ n / 16 := Nat.one_le_div_iff (by omega) |>.mpr (by omega)
        omega
      rw [hexRepChars, if_pos hn16, Nat.mod_eq_of_lt hn16,
        ← hexDigitChar_eq_digitChar n hn16]
      simp
    · rw [if_neg h]
      have hlt : n / 16 < n := Nat.div_lt_self (by omega) (by omega)
      rw [ih (n / 16) hlt f (Nat.digitChar (n % 16) :: ds) (by omega)]
      have hrep : hexRepChars n = hexRepChars (n / 16) ++ [hexDigitChar (n % 16)] := by
        rw [hexRepChars, if_neg (show ¬ n < 16 by
          intro hn16
          exact h (Nat.div_eq_of_lt hn16))]
      rw [hrep, ← hexDigitChar_eq_digitChar (n % 16) (Nat.mod_lt _ (by omega))]
      simp

lemma toDigitsCore_10_eq : ∀ (n fuel : Nat) (ds : List Char), n < fuel →
    Nat.toDigitsCore 10 fuel n ds = decRepChars n ++ ds := by
  intro n
  induction n using Nat.strong_induction_on with
  | _ n ih =>
    intro fuel ds hf
    obtain ⟨f, rfl⟩ : ∃ f, fuel = f + 1 := ⟨fuel - 1, by omega⟩
    simp only [Nat.toDigitsCore]
    by_cases h : n / 10 = 0
    · rw [if_pos h]
      have hn10 : n < 10 := by
        by_contra hge
        have : 1 ≤ n / 10 := Nat.one_le_div_iff (by omega) |>.mpr (by omega)
        omega
      rw [decRepChars, if_pos hn10, Nat.mod_eq_of_lt hn10,
        ← decDigitChar_eq_digitChar n hn10]
      simp
    · rw [if_neg h]
      have hlt : n / 10 < n := Nat.div_lt_self (by omega) (by omega)
      rw [ih (n / 10) hlt f (Nat.digitChar (n % 10) :: ds) (by omega)]
      have hrep : decRepChars n = decRepChars (n / 10) ++ [decDigitChar (n % 10)] := by
        rw [decRepChars, if_neg (show ¬ n < 10 by
          intro hn10
          exact h (Nat.div_eq_of_lt hn10))]
      rw [hrep, ← decDigitChar_eq_digitChar (n % 10) (Nat.mod_lt _ (by omega))]
      simp

lemma toDigits_16_eq (n : Nat) : Nat.toDigits 16 n = hexRepChars n := by
  rw [Nat.toDigits, toDigitsCore_16_eq n (n + 1) [] (by omega)]
  simp

lemma toDigits_10_eq (n : Nat) : Nat.toDigits 10 n = decRepChars n := by
  rw [Nat.toDigits, toDigitsCore_10_eq n (n + 1) [] (by omega)]
  simp

lemma format_address_loop_spec : ∀ (n p : Nat) (buf : List Char),
    (hexRepChars n).length ≤ p → p ≤ buf.length →
    format_address_loop n p buf
      = (p - (hexRepChars n).length,
         buf.take (p - (hexRepChars n).length) ++ hexRepChars n ++ buf.drop p) := by
  intro n
  induction n using Nat.strong_induction_on with
  | _ n ih =>
    intro p buf hp hbuf
    by_cases h : n < 16
    · have hrep : hexRepChars n = [hexDigitChar n] := by rw [hexRepChars, if_pos h]
      rw [hrep] at hp ⊢
      obtain ⟨q, rfl⟩ : ∃ q, p = q + 1 := ⟨p - 1, by simp at hp; omega⟩
      simp only [format_address_loop]
      rw [Nat.mod_eq_of_lt h, if_pos (Nat.div_eq_of_lt h)]
      have hq : q < buf.length := by omega
      rw [List.set_eq_take_append_cons_drop, if_pos hq]
      simp
    · have hrep : hexRepChars n = hexRepChars (n / 16) ++ [hexDigitChar (n % 16)] := by
        rw [hexRepChars, if_neg h]
      have hlt : n / 16 < n := Nat.div_lt_self (by omega) (by omega)
      rw [hrep] at hp ⊢
      simp only [List.length_append, List.length_cons, List.length_nil] at hp
      obtain ⟨q, rfl⟩ : ∃ q, p = q + 1 := ⟨p - 1, by omega⟩
      simp only [format_address_loop]
      rw [if_neg (show ¬ n / 16 = 0 by
        intro hz
        exact h (by omega))]
      have hq : q < buf.length := by omega
      rw [ih (n / 16) hlt q (buf.set q (hexDigitChar (n % 16)))
        (by omega) (by rw [List.length_set]; omega)]
      have hL : (hexRepChars (n / 16)).length ≤ q := by omega
      rw [take_set_of_le buf (q - (hexRepChars (n / 16)).length) q _ (by omega)]
      rw [drop_set_self buf q _ hq]
      have hlen2 : (hexRepChars (n / 16) ++ [hexDigitChar (n % 16)]).length
          = (hexRepChars (n / 16)).length + 1 := by simp
      rw [Prod.mk.injEq]
      refine ⟨by rw [hlen2]; omega, ?_⟩
      rw [hlen2, show q + 1 - ((hexRepChars (n / 16)).length + 1)
          = q - (hexRepChars (n / 16)).length by omega]
      simp

lemma format_unsigned_loop_spec : ∀ (n p : Nat) (buf : List Char),
    (decRepChars n).length ≤ p → p ≤ buf.length →
    format_unsigned_loop n p buf
      = (p - (decRepChars n).length,
         buf.take (p - (decRepChars n).length) ++ decRepChars n ++ buf.drop p) := by
  intro n
  induction n using Nat.strong_induction_on with
  | _ n ih =>
    intro p buf hp hbuf
    by_cases h : n < 10
    · have hrep : decRepChars n = [decDigitChar n] := by rw [decRepChars, if_pos h]
      rw [hrep] at hp ⊢
      obtain ⟨q, rfl⟩ : ∃ q, p = q + 1 := ⟨p - 1, by simp at hp; omega⟩
      simp only [format_unsigned_loop]
      rw [Nat.mod_eq_of_lt h, if_pos (Nat.div_eq_of_lt h)]
      have hq : q < buf.length := by omega
      rw [List.set_eq_take_append_cons_drop, if_pos hq]
      simp
    · have hrep : decRepChars n = decRepChars (n / 10) ++ [decDigitChar (n % 10)] := by
        rw [decRepChars, if_neg h]
      have hlt : n / 10 < n := Nat.div_lt_self (by omega) (by omega)
      rw [hrep] at hp ⊢
      simp only [List.length_append, List.length_cons, List.length_nil] at hp
      obtain ⟨q, rfl⟩ : ∃ q, p = q + 1 := ⟨p - 1, by omega⟩
      simp only [format_unsigned_loop]
      rw [if_neg (show ¬ n / 10 = 0 by
        intro hz
        exact h (by omega))]
      have hq : q < buf.length := by omega
      rw [ih (n / 10) hlt q (buf.set q (decDigitChar (n % 10)))
        (by omega) (by rw [List.length_set]; omega)]
      have hL : (decRepChars (n / 10)).length ≤ q := by omega
      rw [take_set_of_le buf (q - (decRepChars (n / 10)).length) q _ (by omega)]
      rw [drop_set_self buf q _ hq]
      have hlen2 : (decRepChars (n / 10) ++ [decDigitChar (n % 10)]).length
          = (decRepChars (n / 10)).length + 1 := by simp
      rw [Prod.mk.injEq]
      refine ⟨by rw [hlen2]; omega, ?_⟩
      rw [hlen2, show q + 1 - ((decRepChars (n / 10)).length + 1)
          = q - (decRepChars (n / 10)).length by omega]
      simp

lemma justify_loop_spec : ∀ (cs buf : List Char) (src dst : Nat),
    dst < src →
    (∀ i, i < cs.length → buf.get? (src + i) = cs.get? i) →
    buf.get? (src + cs.length) = some NUL →
    (∀ c ∈ cs, c ≠ NUL) →
    ∃ rest, justify_loop buf src dst = buf.take dst ++ (cs ++ NUL :: rest) := by
  intro cs
  induction cs with
  | nil =>
    intro buf src dst hds hreg hnul hcs
    have h0 : buf.get? src = some NUL := by simpa using hnul
    have hsrc : src < buf.length := (List.get?_eq_some.mp h0).1
    rw [justify_loop]
    split
    · rename_i c hc
      rw [h0] at hc
      simp only [Option.some.injEq] at hc
      rw [if_pos hc.symm]
      refine ⟨buf.drop (dst + 1), ?_⟩
      rw [List.set_eq_take_append_cons_drop, if_pos (by omega)]
      simp
    · rename_i hc
      rw [h0] at hc
      exact absurd hc (by simp)
  | cons c cs2 ih =>
    intro buf src dst hds hreg hnul hcs
    have h0 : buf.get? src = some c := by
      have := hreg 0 (by simp)
      simpa using this
    have hsrc : src < buf.length := (List.get?_eq_some.mp h0).1
    have hcNUL : c ≠ NUL := hcs c (by simp)
    rw [justify_loop]
    split
    · rename_i c2 hc
      rw [h0] at hc
      simp only [Option.some.injEq] at hc
      subst hc
      rw [if_neg hcNUL]
      have hreg2 : ∀ i, i < cs2.length →
          (buf.set dst c).get? (src + 1 + i) = cs2.get? i := by
        intro i hi
        rw [List.get?_set_ne c buf (show dst ≠ src + 1 + i by omega)]
        have := hreg (i + 1) (by simp; omega)
        rw [show src + (i + 1) = src + 1 + i by omega] at this
        simpa using this
      have hnul2 : (buf.set dst c).get? (src + 1 + cs2.length) = some NUL := by
        rw [List.get?_set_ne c buf (show dst ≠ src + 1 + cs2.length by omega)]
        rw [show src + 1 + cs2.length = src + (cs2.length + 1) by omega]
        simpa using hnul
      obtain ⟨rest, hrec⟩ := ih (buf.set dst c) (src + 1) (dst + 1) (by omega)
        hreg2 hnul2 (fun x hx => hcs x (by simp [hx]))
      refine ⟨rest, ?_⟩
      rw [hrec, take_succ_set buf dst c (by omega)]
      simp
    · rename_i hc
      rw [h0] at hc
      exact absurd hc (by simp)

/-- Reading the leading non-NUL run of a buffer of the form
representation ++ NUL :: junk gives back the representation. -/
lemma cstr_append_NUL (xs rest : List Char) (hxs : ∀ c ∈ xs, c ≠ NUL) :
    cstr (xs ++ NUL :: rest) = xs := by
  induction xs with
  | nil => simp [cstr, List.takeWhile]
  | cons x xs2 ih =>
    have hx : x ≠ NUL := hxs x (by simp)
    have ih2 := ih (fun c hc => hxs c (by simp [hc]))
    simp only [cstr] at ih2 ⊢
    rw [List.cons_append, List.takeWhile_cons]
    rw [show (!(x == NUL)) = true by simp [hx]]
    simp only [if_true]
    rw [ih2]

lemma format_address_spec (a : Nat) (ha : a < 2 ^ 64) :
    ∃ rest, format_address a = Nat.toDigits 16 a ++ NUL :: rest := by
  rw [toDigits_16_eq]
  have h216 : (16 : Nat) ^ (15 + 1) = 2 ^ 64 := by norm_num
  have hL : (hexRepChars a).length ≤ 16 :=
    hexRepChars_length a 15 (by rw [h216]; exact ha)
  have hbuf : ((List.replicate 18 NUL).set 17 NUL) = List.replicate 18 NUL := by
    decide
  have hloop := format_address_loop_spec a 17 (List.replicate 18 NUL)
    (by omega) (by simp)
  simp only [format_address, hbuf, hloop, List.take_replicate, List.drop_replicate]
  have hmin : min (17 - (hexRepChars a).length) 18 = 17 - (hexRepChars a).length := by
    omega
  rw [hmin, show (18 : Nat) - 17 = 1 by omega]
  rw [if_pos (show (0 : Nat) < 17 - (hexRepChars a).length by omega)]
  obtain ⟨rest, hj⟩ := justify_loop_spec (hexRepChars a)
    (List.replicate (17 - (hexRepChars a).length) NUL ++ hexRepChars a
      ++ List.replicate 1 NUL)
    (17 - (hexRepChars a).length) 0 (by omega)
    (by
      intro i hi
      rw [List.append_assoc]
      rw [List.get?_append_right (by simp)]
      rw [List.length_replicate, Nat.add_sub_cancel_left]
      exact (List.get?_append hi).symm ▸ rfl)
    (by
      rw [List.append_assoc]
      rw [List.get?_append_right (by simp)]
      rw [List.length_replicate, Nat.add_sub_cancel_left]
      rw [List.get?_append_right (by simp)]
      simp [List.replicate])
    (hexRepChars_ne_NUL a)
  refine ⟨rest, ?_⟩
  rw [hj]
  simp

lemma format_unsigned_spec (u : Nat) (hu : u < 2 ^ 32) :
    ∃ rest, format_unsigned u = Nat.toDigits 10 u ++ NUL :: rest := by
  rw [toDigits_10_eq]
  have hL : (decRepChars u).length ≤ 10 :=
    decRepChars_length u 9 (by norm_num at hu ⊢; omega)
  have hbuf : ((List.replicate 22 NUL).set 21 NUL) = List.replicate 22 NUL := by
    decide
  have hloop := format_unsigned_loop_spec u 21 (List.replicate 22 NUL)
    (by omega) (by simp)
  simp only [format_unsigned, hbuf, hloop, List.take_replicate, List.drop_replicate]
  have hmin : min (21 - (decRepChars u).length) 22 = 21 - (decRepChars u).length := by
    omega
  rw [hmin, show (22 : Nat) - 21 = 1 by omega]
  rw [if_pos (show (0 : Nat) < 21 - (decRepChars u).length by omega)]
  obtain ⟨rest, hj⟩ := justify_loop_spec (decRepChars u)
    (List.replicate (21 - (decRepChars u).length) NUL ++ decRepChars u
      ++ List.replicate 1 NUL)
    (21 - (decRepChars u).length) 0 (by omega)
    (by
      intro i hi
      rw [List.append_assoc]
      rw [List.get?_append_right (by simp)]
      rw [List.length_replicate, Nat.add_sub_cancel_left]
      exact (List.get?_append hi).symm ▸ rfl)
    (by
      rw [List.append_assoc]
      rw [List.get?_append_right (by simp)]
      rw [List.length_replicate, Nat.add_sub_cancel_left]
      rw [List.get?_append_right (by simp)]
      simp [List.replicate])
    (decRepChars_ne_NUL u)
  refine ⟨rest, ?_⟩
  rw [hj]
  simp

lemma cstr_format_address (a : Nat) (ha : a < 2 ^ 64) :
    cstr (format_address a) = Nat.toDigits 16 a := by
  obtain ⟨rest, h⟩ := format_address_spec a ha
  rw [h, cstr_append_NUL]
  rw [toDigits_16_eq]
  exact hexRepChars_ne_NUL a

lemma cstr_format_unsigned (u : Nat) (hu : u < 2 ^ 32) :
    cstr (format_unsigned u) = Nat.toDigits 10 u := by
  obtain ⟨rest, h⟩ := format_unsigned_spec u hu
  rw [h, cstr_append_NUL]
  rw [toDigits_10_eq]
  exact decRepChars_ne_NUL u

-- ===========================================================================
-- Supporting lemmas: backtracer argument strings
-- ===========================================================================

lemma unwindArg_eq (a : UnwindAlgorithm) :
    (match a with | UnwindAlgorithm.Fast => "fast" | _ => "precise")
      = (if a = UnwindAlgorithm.Fast then "fast" else "precise") := by
  cases a <;> rfl

lemma trueOrFalseTty_eq (o : OnOffTty) :
    trueOrFalseTty o = (if o = OnOffTty.On then "true" else "false") := by
  cases o <;> rfl

lemma threadsArg_eq (t : ThreadsToShow) :
    (match t with
      | ThreadsToShow.Preset => "preset"
      | ThreadsToShow.All => "all"
      | ThreadsToShow.Crashed => "crashed")
      = (if t = ThreadsToShow.Preset then "preset"
         else if t = ThreadsToShow.All then "all" else "crashed") := by
  cases t <;> rfl

lemma registersArg_eq (r : RegistersToShow) :
    (match r with
      | RegistersToShow.Preset => "preset"
      | RegistersToShow.None => "none"
      | RegistersToShow.All => "all"
      | RegistersToShow.Crashed => "crashed")
      = (if r = RegistersToShow.Preset then "preset"
         else if r = RegistersToShow.None then "none"
         else if r = RegistersToShow.All then "all" else "crashed") := by
  cases r <;> rfl

lemma imagesArg_eq (i : ImagesToShow) :
    (match i with
      | ImagesToShow.Preset => "preset"
      | ImagesToShow.None => "none"
      | ImagesToShow.All => "all"
      | ImagesToShow.Mentioned => "mentioned")
      = (if i = ImagesToShow.Preset then "preset"
         else if i = ImagesToShow.None then "none"
         else if i = ImagesToShow.All then "all" else "mentioned") := by
  cases i <;> rfl

lemma presetArg_eq (p : Preset) :
    (match p with
      | Preset.Friendly => "friendly"
      | Preset.Medium => "medium"
      | _ => "full")
      = (if p = Preset.Friendly then "friendly"
         else if p = Preset.Medium then "medium" else "full") := by
  cases p <;> rfl

lemma sanitizeArg_eq (sp : SanitizePaths) :
    (match sp with
      | SanitizePaths.Preset => "preset"
      | SanitizePaths.Off => "false"
      | SanitizePaths.On => "true")
      = (if sp = SanitizePaths.Preset then "preset"
         else if sp = SanitizePaths.Off then "false" else "true") := by
  cases sp <;> rfl

lemma outputToArg_eq (o : OutputTo) :
    (match o with
      | OutputTo.Stdout => "stdout"
      | OutputTo.Auto => "stderr"
      | OutputTo.Stderr => "stderr")
      = (if o = OutputTo.Stdout then "stdout" else "stderr") := by
  cases o <;> rfl

lemma readBytes_mem_zero : ∀ (n addr : Nat),
    readBytes mem_zero addr n = some (List.replicate n 0) := by
  intro n
  induction n with
  | zero => intro addr; rfl
  | succ m ih =>
    intro addr
    simp only [readBytes, mem_zero, ih (addr + 1), List.replicate_succ]

-- ===========================================================================
-- Claim theorems
-- ===========================================================================

set_option maxRecDepth 4000

/-- C1: the claim says a request whose target range cannot be read yields a
negative-length response with no payload.  Evaluating the embedded code at
a failing input shows otherwise for the guarded-copy path: with
`memserver_has_ptrace = false` and every address unmapped, a request for 2
bytes at address 0 produces two responses with length field 1 — positive —
each followed by one stale buffer byte (the fault path of `memserver_read`
returns 1, not a negative value).  The privileged-read path
(`memserver_has_ptrace = true`) does behave as claimed: response length -1,
no payload, and the server goes on to answer the next request. -/
theorem c1_fault_behavior :
    (memserver_entry false wok_true mem_unmapped [some ⟨0, 2⟩]
        memserver_buffer0 0).1
      = [WireItem.resp 0 1, WireItem.payload [0],
         WireItem.resp 1 1, WireItem.payload [0]]
    ∧ (memserver_entry true wok_true mem_unmapped [some ⟨0, 2⟩, some ⟨5, 1⟩]
        memserver_buffer0 0).1
      = [WireItem.resp 0 (-1), WireItem.resp 5 (-1)] := by
  constructor <;> decide

/-- C2 counterexample: a request with length 0 yields no response header at
all — not "exactly one" — because the `while (bytes)` loop body never runs. -/
theorem c2_counterexample :
    respCount ((memserver_entry false wok_true mem_unmapped [some ⟨0, 0⟩]
      memserver_buffer0 0).1) ≠ 1 := by
  decide

/-- C2 (amended): a request {addr, L} over fully readable memory yields one
response header per copy round — zero when L = 0, and in general
ceil(L/4096) — and each header is followed by exactly its length in payload
bytes. -/
theorem c2_per_round_framing (hp : Bool) (mem : Mem) (addr L : Nat)
    (bs buf : List Nat) (wc : Nat) (h : readBytes mem addr L = some bs) :
    (memserver_entry hp wok_true mem [some ⟨addr, L⟩] buf wc).1 = chunkedOut addr bs
    ∧ respCount (chunkedOut addr bs) = (L + 4095) / 4096
    ∧ framedOK (chunkedOut addr bs) = true := by
  have hlen := readBytes_length mem L addr bs h
  exact ⟨memserver_entry_single hp mem addr L bs buf wc h,
    respCount_chunkedOut L bs addr hlen,
    framedOK_chunkedOut L bs addr hlen⟩

theorem c2_witness :
    (memserver_entry false wok_true mem_zero [some ⟨0, 1⟩] memserver_buffer0 0).1
        = chunkedOut 0 [0]
      ∧ respCount (chunkedOut 0 [0]) = (1 + 4095) / 4096
      ∧ framedOK (chunkedOut 0 [0]) = true :=
  c2_per_round_framing false mem_zero 0 1 [0] memserver_buffer0 0 (by decide)

/-- C3 counterexample: a fully readable request for 4097 bytes is split
into rounds; the response length fields are 4096 and 1, and no response
carries the requested total 4097. -/
theorem c3_counterexample :
    respLens ((memserver_entry false wok_true mem_zero [some ⟨0, 4097⟩]
        memserver_buffer0 0).1) = [(4096 : Int), 1]
    ∧ ¬ ((4097 : Int) ∈ respLens ((memserver_entry false wok_true mem_zero
        [some ⟨0, 4097⟩] memserver_buffer0 0).1)) := by
  have h := memserver_entry_single false mem_zero 0 4097 (List.replicate 4097 0)
    memserver_buffer0 0 (readBytes_mem_zero 4097 0)
  have hlen : (List.replicate 4097 (0 : Nat)).length = 4097 := by
    rw [List.length_replicate]
  have hl := respLens_chunkedOut 4097 (List.replicate 4097 0) 0 hlen
  have hchunk : chunkLens 4097 = [(4096 : Int), 1] := by
    rw [chunkLens, if_neg (by omega : ¬ (4097 = 0)),
      show min 4097 4096 = 4096 by decide,
      show (4097 : Nat) - 4096 = 1 by decide]
    rw [chunkLens, if_neg (by omega : ¬ (1 = 0)),
      show min 1 4096 = 1 by decide,
      show (1 : Nat) - 1 = 0 by decide]
    rw [chunkLens, if_pos rfl]
    decide
  rw [h, hl, hchunk]
  exact ⟨rfl, by decide⟩

/-- C3 (amended): for a fully readable request of N bytes, when N ≤ 4096
the server sends a single response with length N followed by exactly the N
source bytes; in general it copies at most 4096 bytes per round, each
round's response length is min(remaining, 4096) and the concatenated
payloads are exactly the N source bytes. -/
theorem c3_round_trip (hp : Bool) (mem : Mem) (addr N : Nat)
    (bs buf : List Nat) (wc : Nat) (h : readBytes mem addr N = some bs) :
    (0 < N → N ≤ 4096 →
      (memserver_entry hp wok_true mem [some ⟨addr, N⟩] buf wc).1
        = [WireItem.resp addr (N : Int), WireItem.payload bs])
    ∧ concatPayloads ((memserver_entry hp wok_true mem [some ⟨addr, N⟩] buf wc).1)
        = bs
    ∧ respLens ((memserver_entry hp wok_true mem [some ⟨addr, N⟩] buf wc).1)
        = chunkLens N := by
  have hlen := readBytes_length mem N addr bs h
  have hout := memserver_entry_single hp mem addr N bs buf wc h
  refine ⟨?_, ?_, ?_⟩
  · intro h0 h4096
    rw [hout, chunkedOut]
    rw [if_neg (show ¬ bs.isEmpty = true by
      rw [List.isEmpty_iff_length_eq_zero, hlen]
      omega)]
    rw [hlen, show min N 4096 = N by omega]
    show WireItem.resp addr (N : Int) :: WireItem.payload (List.take N bs)
        :: chunkedOut (addr + N) (List.drop N bs)
      = [WireItem.resp addr (N : Int), WireItem.payload bs]
    rw [List.take_of_length_le (by omega : bs.length ≤ N)]
    rw [List.drop_eq_nil_of_le (by omega : bs.length ≤ N)]
    rw [chunkedOut]
    simp
  · rw [hout]
    exact concatPayloads_chunkedOut N bs addr hlen
  · rw [hout]
    exact respLens_chunkedOut N bs addr hlen

theorem c3_witness :
    (memserver_entry true wok_true mem_zero [some ⟨0, 1⟩] memserver_buffer0 0).1
        = [WireItem.resp 0 (1 : Int), WireItem.payload [0]]
      ∧ concatPayloads ((memserver_entry true wok_true mem_zero [some ⟨0, 1⟩]
          memserver_buffer0 0).1) = [0]
      ∧ respLens ((memserver_entry true wok_true mem_zero [some ⟨0, 1⟩]
          memserver_buffer0 0).1) = chunkLens 1 := by
  have h := c3_round_trip true mem_zero 0 1 [0] memserver_buffer0 0 (by decide)
  exact ⟨h.1 (by omega) (by omega), h.2.1, h.2.2⟩

/-- C4: the claim says the protocol loop ends (closing the channel) on peer
close, short/malformed read, or write failure.  Evaluating the embedded
`safe_read` on an end-of-stream channel (every `read` call returns 0) shows
the loop never returns — no fuel suffices — because a zero-byte result is
added to `ptr` without any end-of-stream break, so `memserver_entry` never
observes the peer close and never reaches `close(fd)`.  (A genuine read
error does end the session with the descriptor closed, as the second
conjunct shows.) -/
theorem c4_safe_read_eof_spin :
    (∀ fuel k : Nat, safe_read (fun _ => 0) 16 fuel k 0 = none)
    ∧ (∀ (hp : Bool) (wok : Nat → Bool) (mem : Mem)
        (rest : List (Option memserver_req)) (buf : List Nat) (wc : Nat),
        memserver_entry hp wok mem (none :: rest) buf wc = ([], 0, true)) := by
  constructor
  · intro fuel
    induction fuel with
    | zero => intro k; rfl
    | succ f ih =>
      intro k
      simp only [safe_read]
      norm_num
      exact ih (k + 1)
  · intro hp wok mem rest buf wc
    rfl

/-- C5 counterexample: with threads {1, 2}, calling thread 1, and thread 2
never responding to the pausing signal, every pass re-signals thread 2 (it
never appears in the registry), so the thread count grows every pass and
the `do/while` convergence test never succeeds: the coordinator does not
return for any number of passes. -/
theorem c5_counterexample :
    ¬ suspend_terminates (fun _ => false) [1, 2] 1 [] := by
  rintro ⟨fuel, h⟩
  unfold suspend_other_threads at h
  rw [show reset_threads [] 1 = [1] from rfl] at h
  rw [suspend_loop_unresponsive fuel] at h
  simp at h

/-- C5 (amended): each `wait_paused` call is bounded by the 5-second futex
timeout, but the coordinator's pass loop only exits once a full pass sends
zero new signals; if every signalled thread registers during the wait (all
threads responsive) the loop exits within two passes, whereas a thread
that never responds makes the loop repeat forever
(`c5_counterexample`). -/
theorem c5_all_responsive (responsive : Int → Bool) (tids : List Int)
    (self : Int) (prev : List Int) (fuel : Nat)
    (hresp : ∀ t ∈ tids, responsive t = true) (hfuel : 2 ≤ fuel) :
    (suspend_other_threads responsive tids self prev fuel).isSome = true :=
  suspend_other_threads_responsive responsive tids self prev fuel hresp hfuel

theorem c5_witness :
    (suspend_other_threads (fun _ => true) [5, 7] 1 [] 2).isSome = true :=
  c5_all_responsive (fun _ => true) [5, 7] 1 [] 2 (fun t _ => rfl) (by omega)

/-- C6: in every execution of `handle_fatal_signal` (with arbitrary errno
clobbering by the individual steps), errno is restored to its entry value;
the step trace is exactly the source order; thread suspension strictly
precedes every fatal-signal disposition reset, the crash-info capture and
the memory-server start; every disposition reset of the initial loop
strictly precedes the memory-server start and the backtracer; and the
other threads are resumed after the backtracer has run. -/
theorem c6_handler_ordering :
    ∀ (clob : HEvent → Int) (e0 : Int),
      (handle_fatal_signal clob ⟨e0, []⟩).errno = e0
      ∧ (handle_fatal_signal clob ⟨e0, []⟩).trace =
          [HEvent.suspendOtherThreads, HEvent.resetSignal SIGQUIT,
           HEvent.resetSignal SIGABRT, HEvent.resetSignal SIGBUS,
           HEvent.resetSignal SIGFPE, HEvent.resetSignal SIGILL,
           HEvent.resetSignal SIGSEGV, HEvent.resetSignal SIGTRAP,
           HEvent.captureInfo, HEvent.memserverStart, HEvent.runBacktracer,
           HEvent.resetSignal SIGSEGV, HEvent.resetSignal SIGBUS,
           HEvent.resumeOtherThreads]
      ∧ (∀ sig ∈ signalsToHandle,
          (handle_fatal_signal clob ⟨e0, []⟩).trace.indexOf
              HEvent.suspendOtherThreads
            < (handle_fatal_signal clob ⟨e0, []⟩).trace.indexOf
              (HEvent.resetSignal sig))
      ∧ (handle_fatal_signal clob ⟨e0, []⟩).trace.indexOf HEvent.suspendOtherThreads
          < (handle_fatal_signal clob ⟨e0, []⟩).trace.indexOf HEvent.captureInfo
      ∧ (handle_fatal_signal clob ⟨e0, []⟩).trace.indexOf HEvent.suspendOtherThreads
          < (handle_fatal_signal clob ⟨e0, []⟩).trace.indexOf HEvent.memserverStart
      ∧ (∀ sig ∈ signalsToHandle,
          (handle_fatal_signal clob ⟨e0, []⟩).trace.indexOf (HEvent.resetSignal sig)
              < (handle_fatal_signal clob ⟨e0, []⟩).trace.indexOf
                HEvent.memserverStart
            ∧ (handle_fatal_signal clob ⟨e0, []⟩).trace.indexOf
                (HEvent.resetSignal sig)
              < (handle_fatal_signal clob ⟨e0, []⟩).trace.indexOf
                HEvent.runBacktracer)
      ∧ (handle_fatal_signal clob ⟨e0, []⟩).trace.indexOf HEvent.runBacktracer
          < (handle_fatal_signal clob ⟨e0, []⟩).trace.indexOf
            HEvent.resumeOtherThreads := by
  intro clob e0
  have htr : (handle_fatal_signal clob ⟨e0, []⟩).trace =
      [HEvent.suspendOtherThreads, HEvent.resetSignal SIGQUIT,
       HEvent.resetSignal SIGABRT, HEvent.resetSignal SIGBUS,
       HEvent.resetSignal SIGFPE, HEvent.resetSignal SIGILL,
       HEvent.resetSignal SIGSEGV, HEvent.resetSignal SIGTRAP,
       HEvent.captureInfo, HEvent.memserverStart, HEvent.runBacktracer,
       HEvent.resetSignal SIGSEGV, HEvent.resetSignal SIGBUS,
       HEvent.resumeOtherThreads] := rfl
  refine ⟨rfl, htr, ?_, ?_, ?_, ?_, ?_⟩ <;> rw [htr] <;> decide

/-- C7: for every representable input — the full 64-bit pointer range for
`format_address` and the full 32-bit unsigned range for `format_unsigned` —
the final buffer content is exactly the standard hexadecimal (resp.
decimal) digit string, left-justified at the start of the buffer,
NUL-terminated, with no leading zero-padding and no truncation
(`Nat.toDigits` is the standard representation, `'0'`-first, no padding). -/
theorem c7_formatting :
    (∀ a : Nat, a < 2 ^ 64 →
      ∃ rest, format_address a = Nat.toDigits 16 a ++ NUL :: rest)
    ∧ (∀ u : Nat, u < 2 ^ 32 →
      ∃ rest, format_unsigned u = Nat.toDigits 10 u ++ NUL :: rest) :=
  ⟨format_address_spec, format_unsigned_spec⟩

theorem c7_witness :
    (∃ rest, format_address (2 ^ 64 - 1)
        = Nat.toDigits 16 (2 ^ 64 - 1) ++ NUL :: rest)
    ∧ (∃ rest, format_unsigned (2 ^ 32 - 1)
        = Nat.toDigits 10 (2 ^ 32 - 1) ++ NUL :: rest) :=
  ⟨c7_formatting.1 (2 ^ 64 - 1) (by norm_num),
   c7_formatting.2 (2 ^ 32 - 1) (by norm_num)⟩

/-- C8: `run_backtracer` produces the fixed-shape 31-entry argument vector,
mapping every setting to its fixed textual flag value; a negative limit
yields the literal "none" while a non-negative one yields its decimal
representation; and `--crashinfo` carries the hexadecimal address of the
CrashInfo structure. -/
theorem c8_argv (s : BacktraceSettings) (ca : Nat) (hca : ca < 2 ^ 64)
    (htimeout : s.timeout < 2 ^ 32) (htop : s.top < 2 ^ 32)
    (hlimit : s.limit < 2 ^ 31) :
    run_backtracer s ca =
      ["swift-backtrace",
       "--unwind", (if s.algorithm = UnwindAlgorithm.Fast then "fast" else "precise"),
       "--demangle", (if s.demangle = OnOffTty.On then "true" else "false"),
       "--interactive", (if s.interactive = OnOffTty.On then "true" else "false"),
       "--color", (if s.color = OnOffTty.On then "true" else "false"),
       "--timeout", (Nat.toDigits 10 s.timeout).asString,
       "--preset", (if s.preset = Preset.Friendly then "friendly"
         else if s.preset = Preset.Medium then "medium" else "full"),
       "--crashinfo", (Nat.toDigits 16 ca).asString,
       "--threads", (if s.threads = ThreadsToShow.Preset then "preset"
         else if s.threads = ThreadsToShow.All then "all" else "crashed"),
       "--registers", (if s.registers = RegistersToShow.Preset then "preset"
         else if s.registers = RegistersToShow.None then "none"
         else if s.registers = RegistersToShow.All then "all" else "crashed"),
       "--images", (if s.images = ImagesToShow.Preset then "preset"
         else if s.images = ImagesToShow.None then "none"
         else if s.images = ImagesToShow.All then "all" else "mentioned"),
       "--limit", (if s.limit < 0 then "none"
         else (Nat.toDigits 10 s.limit.toNat).asString),
       "--top", (Nat.toDigits 10 s.top).asString,
       "--sanitize", (if s.sanitize = SanitizePaths.Preset then "preset"
         else if s.sanitize = SanitizePaths.Off then "false" else "true"),
       "--cache", (if s.cache = OnOffTty.On then "true" else "false"),
       "--output-to", (if s.outputTo = OutputTo.Stdout then "stdout" else "stderr")]
    := by
  have ht : cstr (format_unsigned s.timeout) = Nat.toDigits 10 s.timeout :=
    cstr_format_unsigned _ htimeout
  have htp : cstr (format_unsigned s.top) = Nat.toDigits 10 s.top :=
    cstr_format_unsigned _ htop
  have ha : cstr (format_address ca) = Nat.toDigits 16 ca :=
    cstr_format_address _ hca
  have hl : (if s.limit < 0 then "none"
      else (cstr (format_unsigned s.limit.toNat)).asString)
      = (if s.limit < 0 then "none"
      else (Nat.toDigits 10 s.limit.toNat).asString) := by
    by_cases h : s.limit < 0
    · rw [if_pos h, if_pos h]
    · rw [if_neg h, if_neg h,
        cstr_format_unsigned _ (show s.limit.toNat < 2 ^ 32 by omega)]
  simp only [run_backtracer, backtracer_argv, ht, htp, ha, hl,
    unwindArg_eq, trueOrFalseTty_eq, threadsArg_eq, registersArg_eq,
    imagesArg_eq, presetArg_eq, sanitizeArg_eq, outputToArg_eq]
  rfl

theorem c8_witness :
    run_backtracer
        ⟨UnwindAlgorithm.Fast, OnOffTty.On, OnOffTty.Off, OnOffTty.TTY, 30,
         Preset.Medium, ThreadsToShow.All, RegistersToShow.Crashed,
         ImagesToShow.Mentioned, -1, 16, SanitizePaths.On, OnOffTty.Off,
         OutputTo.Auto⟩ 51966 =
      ["swift-backtrace",
       "--unwind", "fast",
       "--demangle", "true",
       "--interactive", "false",
       "--color", "false",
       "--timeout", (Nat.toDigits 10 30).asString,
       "--preset", "medium",
       "--crashinfo", (Nat.toDigits 16 51966).asString,
       "--threads", "all",
       "--registers", "crashed",
       "--images", "mentioned",
       "--limit", "none",
       "--top", (Nat.toDigits 10 16).asString,
       "--sanitize", "true",
       "--cache", "false",
       "--output-to", "stderr"] := by
  have h := c8_argv
    ⟨UnwindAlgorithm.Fast, OnOffTty.On, OnOffTty.Off, OnOffTty.TTY, 30,
     Preset.Medium, ThreadsToShow.All, RegistersToShow.Crashed,
     ImagesToShow.Mentioned, -1, 16, SanitizePaths.On, OnOffTty.Off,
     OutputTo.Auto⟩ 51966 (by norm_num) (by norm_num) (by norm_num) (by norm_num)
  rw [h]
  rfl

/-- C9: within one suspension cycle — a `reset_threads` to the calling
thread's record followed by any sequence of `add_thread` inserts —
`seen_thread t` is true exactly for the inserted thread ids and the
calling thread's own id, independently of whatever the registry held in
earlier cycles (`prev`). -/
theorem c9_registry (prev : List Int) (self : Int) (ts : List Int) (t : Int) :
    seen_thread (List.foldl add_thread (reset_threads prev self) ts) t
      = (ts.contains t || t == self) := by
  rw [seen_thread_foldl]
  show (ts.contains t || seen_thread [self] t) = (ts.contains t || t == self)
  by_cases h : self = t
  · subst h
    simp [seen_thread]
  · have h1 : (t == self) = false := by simp [Ne.symm h]
    simp [seen_thread, h, h1]

set_option maxHeartbeats 2000000 in
/-- C10: the settings values outside the explicitly listed enumerations map
to fixed deterministic fallbacks: any unwind algorithm other than Fast is
rendered "precise" (the switch default), any preset other than Friendly or
Medium is rendered "full", `OutputTo.Auto` falls through to "stderr", and
every `OnOffTty` value other than On (Off and TTY alike) is rendered
"false" by `trueOrFalse(oot == OnOffTty::On)`. -/
theorem c10_fallbacks (s : BacktraceSettings) (ca : Nat) :
    (s.algorithm ≠ UnwindAlgorithm.Fast →
      (run_backtracer s ca).get? 2 = some "precise")
    ∧ (s.preset ≠ Preset.Friendly → s.preset ≠ Preset.Medium →
      (run_backtracer s ca).get? 12 = some "full")
    ∧ (s.outputTo = OutputTo.Auto →
      (run_backtracer s ca).get? 30 = some "stderr")
    ∧ (s.demangle ≠ OnOffTty.On →
      (run_backtracer s ca).get? 4 = some "false")
    ∧ (s.interactive ≠ OnOffTty.On →
      (run_backtracer s ca).get? 6 = some "false")
    ∧ (s.color ≠ OnOffTty.On →
      (run_backtracer s ca).get? 8 = some "false")
    ∧ (s.cache ≠ OnOffTty.On →
      (run_backtracer s ca).get? 28 = some "false") := by
  obtain ⟨alg, dem, intr, col, tim, pre, thr, reg, img, lim, tp, san, cac, out⟩ := s
  have hrb : run_backtracer ⟨alg, dem, intr, col, tim, pre, thr, reg, img, lim,
      tp, san, cac, out⟩ ca =
    ["swift-backtrace",
     "--unwind", (match alg with
       | UnwindAlgorithm.Fast => "fast"
       | _ => "precise"),
     "--demangle", trueOrFalseTty dem,
     "--interactive", trueOrFalseTty intr,
     "--color", trueOrFalseTty col,
     "--timeout", (cstr (format_unsigned tim)).asString,
     "--preset", (match pre with
       | Preset.Friendly => "friendly"
       | Preset.Medium => "medium"
       | _ => "full"),
     "--crashinfo", (cstr (format_address ca)).asString,
     "--threads", (match thr with
       | ThreadsToShow.Preset => "preset"
       | ThreadsToShow.All => "all"
       | ThreadsToShow.Crashed => "crashed"),
     "--registers", (match reg with
       | RegistersToShow.Preset => "preset"
       | RegistersToShow.None => "none"
       | RegistersToShow.All => "all"
       | RegistersToShow.Crashed => "crashed"),
     "--images", (match img with
       | ImagesToShow.Preset => "preset"
       | ImagesToShow.None => "none"
       | ImagesToShow.All => "all"
       | ImagesToShow.Mentioned => "mentioned"),
     "--limit", (if lim < 0 then "none"
       else (cstr (format_unsigned lim.toNat)).asString),
     "--top", (cstr (format_unsigned tp)).asString,
     "--sanitize", (match san with
       | SanitizePaths.Preset => "preset"
       | SanitizePaths.Off => "false"
       | SanitizePaths.On => "true"),
     "--cache", trueOrFalseTty cac,
     "--output-to", (match out with
       | OutputTo.Stdout => "stdout"
       | OutputTo.Auto => "stderr"
       | OutputTo.Stderr => "stderr")] := rfl
  rw [hrb]
  refine ⟨?_, ?_, ?_, ?_, ?_, ?_, ?_⟩
  · intro h
    cases alg
    · rfl
    · exact absurd rfl h
    · rfl
  · intro h1 h2
    cases pre
    · rfl
    · exact absurd rfl h1
    · exact absurd rfl h2
    · rfl
  · intro h
    cases out
    · rfl
    · simp at h
    · simp at h
  · intro h
    cases dem
    · rfl
    · exact absurd rfl h
    · rfl
  · intro h
    cases intr
    · rfl
    · exact absurd rfl h
    · rfl
  · intro h
    cases col
    · rfl
    · exact absurd rfl h
    · rfl
  · intro h
    cases cac
    · rfl
    · exact absurd rfl h
    · rfl

theorem c10_witness :
    ((run_backtracer ⟨UnwindAlgorithm.Auto, OnOffTty.Off, OnOffTty.TTY,
        OnOffTty.Off, 0, Preset.Auto, ThreadsToShow.Preset, RegistersToShow.None,
        ImagesToShow.All, 0, 0, SanitizePaths.Preset, OnOffTty.TTY,
        OutputTo.Auto⟩ 0).get? 2 = some "precise")
    ∧ ((run_backtracer ⟨UnwindAlgorithm.Auto, OnOffTty.Off, OnOffTty.TTY,
        OnOffTty.Off, 0, Preset.Auto, ThreadsToShow.Preset, RegistersToShow.None,
        ImagesToShow.All, 0, 0, SanitizePaths.Preset, OnOffTty.TTY,
        OutputTo.Auto⟩ 0).get? 12 = some "full")
    ∧ ((run_backtracer ⟨UnwindAlgorithm.Auto, OnOffTty.Off, OnOffTty.TTY,
        OnOffTty.Off, 0, Preset.Auto, ThreadsToShow.Preset, RegistersToShow.None,
        ImagesToShow.All, 0, 0, SanitizePaths.Preset, OnOffTty.TTY,
        OutputTo.Auto⟩ 0).get? 30 = some "stderr")
    ∧ ((run_backtracer ⟨UnwindAlgorithm.Auto, OnOffTty.Off, OnOffTty.TTY,
        OnOffTty.Off, 0, Preset.Auto, ThreadsToShow.Preset, RegistersToShow.None,
        ImagesToShow.All, 0, 0, SanitizePaths.Preset, OnOffTty.TTY,
        OutputTo.Auto⟩ 0).get? 4 = some "false")
    ∧ ((run_backtracer ⟨UnwindAlgorithm.Auto, OnOffTty.Off, OnOffTty.TTY,
        OnOffTty.Off, 0, Preset.Auto, ThreadsToShow.Preset, RegistersToShow.None,
        ImagesToShow.All, 0, 0, SanitizePaths.Preset, OnOffTty.TTY,
        OutputTo.Auto⟩ 0).get? 28 = some "false") := by
  have h := c10_fallbacks
    ⟨UnwindAlgorithm.Auto, OnOffTty.Off, OnOffTty.TTY, OnOffTty.Off, 0,
     Preset.Auto, ThreadsToShow.Preset, RegistersToShow.None, ImagesToShow.All,
     0, 0, SanitizePaths.Preset, OnOffTty.TTY, OutputTo.Auto⟩ 0
  exact ⟨h.1 (by decide), h.2.1 (by decide) (by decide), h.2.2.1 rfl,
    h.2.2.2.1 (by decide), h.2.2.2.2.2.2 (by decide)⟩
